import Mathlib

set_option maxRecDepth 10000
set_option maxHeartbeats 1000000

/-!
Verification development for the RUNOS packet-classification core
(PacketParser.cc): a shallow embedding of the layered packet parser, its
binding table, DHCP option scanner and field accessors, together with
theorems checking the natural-language specification against the code.

The packet buffer is a list of byte values; reads past the end of the
buffer (which the C++ code can perform through raw pointers) are modelled
by List.getD with default 0, and the DHCP option scanner additionally
records the list of buffer positions it dereferences, so that claims about
out-of-bounds reads can be stated.
-/

/-- A packet buffer: the raw byte sequence handed over by the control
session, one natural number (expected below 256) per byte. -/
abbrev Packet := List Nat

/-- Canonical field identifiers (the OpenFlow basic-match namespace ids
used by the parser); one constructor per field the layered parse binds. -/
inductive Fid where
  | IN_PORT | ETH_TYPE | ETH_SRC | ETH_DST | VLAN_VID
  | IP_PROTO | IPV4_SRC | IPV4_DST
  | ARP_OP | ARP_SHA | ARP_THA | ARP_SPA | ARP_TPA
  | TCP_SRC | TCP_DST | UDP_SRC | UDP_DST
  | DHCP_OP | DHCP_XID | DHCP_CIADDR | DHCP_YIADDR | DHCP_CHADDR
  deriving DecidableEq

/-- A binding location. The C++ binding table stores raw pointers: either
the address of the stored ingress-port member or a pointer into the packet
buffer (modelled as a byte offset).  The null pointer, used both for
"unbound" and for the explicit "no location" sentinel, is modelled as
Option.none at the slot. -/
inductive Loc where
  | inPort
  | buf (off : Nat)
  deriving DecidableEq

/-- Fatal programming-contract violations (the ASSERT calls in the C++
code): binding a bound slot, rebinding an unbound slot, and accessing an
unbound field. -/
inductive PErr where
  | alreadyBound
  | rebindUnbound
  | unsupportedField
  deriving DecidableEq

/-- A DHCP option entry: code byte, length byte and the value bytes (a
view of length bytes into the buffer, materialised as a list). -/
structure DhcpOpt where
  code : Nat
  len : Nat
  value : List Nat
  deriving DecidableEq

/-- The empty sentinel entry returned for a DHCP option code that was
never scanned (the default-constructed dhcp_opt). -/
def emptyDhcpOpt : DhcpOpt := ⟨0, 0, []⟩

/-- The DHCP option table: option code to most recently scanned entry. -/
abbrev DhcpMap := Nat → Option DhcpOpt

/-- Insertion into the option table; a later insertion for the same code
overwrites the earlier one. -/
def mapInsert (m : DhcpMap) (k : Nat) (v : DhcpOpt) : DhcpMap :=
  fun k2 => if k2 = k then some v else m k2

/-- The binding table: one optional location per canonical field id
(the fixed-size array of pointers in the C++ class). -/
structure Bindings where
  inPort : Option Loc
  ethType : Option Loc
  ethSrc : Option Loc
  ethDst : Option Loc
  vlanVid : Option Loc
  ipProto : Option Loc
  ipv4Src : Option Loc
  ipv4Dst : Option Loc
  arpOp : Option Loc
  arpSha : Option Loc
  arpTha : Option Loc
  arpSpa : Option Loc
  arpTpa : Option Loc
  tcpSrc : Option Loc
  tcpDst : Option Loc
  udpSrc : Option Loc
  udpDst : Option Loc
  dhcpOp : Option Loc
  dhcpXid : Option Loc
  dhcpCiaddr : Option Loc
  dhcpYiaddr : Option Loc
  dhcpChaddr : Option Loc
  deriving DecidableEq

/-- All slots unbound: bindings.fill(nullptr). -/
def emptyBindings : Bindings :=
  ⟨none, none, none, none, none, none, none, none, none, none, none,
   none, none, none, none, none, none, none, none, none, none, none⟩

/-- Read the slot of a field id. -/
def getB (b : Bindings) : Fid → Option Loc
  | .IN_PORT => b.inPort
  | .ETH_TYPE => b.ethType
  | .ETH_SRC => b.ethSrc
  | .ETH_DST => b.ethDst
  | .VLAN_VID => b.vlanVid
  | .IP_PROTO => b.ipProto
  | .IPV4_SRC => b.ipv4Src
  | .IPV4_DST => b.ipv4Dst
  | .ARP_OP => b.arpOp
  | .ARP_SHA => b.arpSha
  | .ARP_THA => b.arpTha
  | .ARP_SPA => b.arpSpa
  | .ARP_TPA => b.arpTpa
  | .TCP_SRC => b.tcpSrc
  | .TCP_DST => b.tcpDst
  | .UDP_SRC => b.udpSrc
  | .UDP_DST => b.udpDst
  | .DHCP_OP => b.dhcpOp
  | .DHCP_XID => b.dhcpXid
  | .DHCP_CIADDR => b.dhcpCiaddr
  | .DHCP_YIADDR => b.dhcpYiaddr
  | .DHCP_CHADDR => b.dhcpChaddr

/-- Set the slot of a field id. -/
def setB (b : Bindings) : Fid → Option Loc → Bindings
  | .IN_PORT, v => { b with inPort := v }
  | .ETH_TYPE, v => { b with ethType := v }
  | .ETH_SRC, v => { b with ethSrc := v }
  | .ETH_DST, v => { b with ethDst := v }
  | .VLAN_VID, v => { b with vlanVid := v }
  | .IP_PROTO, v => { b with ipProto := v }
  | .IPV4_SRC, v => { b with ipv4Src := v }
  | .IPV4_DST, v => { b with ipv4Dst := v }
  | .ARP_OP, v => { b with arpOp := v }
  | .ARP_SHA, v => { b with arpSha := v }
  | .ARP_THA, v => { b with arpTha := v }
  | .ARP_SPA, v => { b with arpSpa := v }
  | .ARP_TPA, v => { b with arpTpa := v }
  | .TCP_SRC, v => { b with tcpSrc := v }
  | .TCP_DST, v => { b with tcpDst := v }
  | .UDP_SRC, v => { b with udpSrc := v }
  | .UDP_DST, v => { b with udpDst := v }
  | .DHCP_OP, v => { b with dhcpOp := v }
  | .DHCP_XID, v => { b with dhcpXid := v }
  | .DHCP_CIADDR, v => { b with dhcpCiaddr := v }
  | .DHCP_YIADDR, v => { b with dhcpYiaddr := v }
  | .DHCP_CHADDR, v => { b with dhcpChaddr := v }

/-- Read one byte of the buffer (out-of-range reads yield the default 0,
standing for whatever byte lies past the buffer in memory). -/
def read8 (pkt : Packet) (i : Nat) : Nat := pkt.getD i 0

/-- Big-endian read of w bytes starting at off. -/
def readBE (pkt : Packet) (off : Nat) : Nat → Nat
  | 0 => 0
  | w + 1 => 256 * readBE pkt off w + read8 pkt (off + w)

/-- Big-endian 16-bit read, as done by the big_uint16_t overlays. -/
def read16 (pkt : Packet) (i : Nat) : Nat := readBE pkt i 2

/-- Write the w low-order bytes of v big-endian at off (writes beyond the
end of the list leave it unchanged, as List.set does). -/
def writeBE (pkt : Packet) (off : Nat) : Nat → Nat → Packet
  | 0, _ => pkt
  | w + 1, v => ((writeBE pkt off w (v / 256)).set (off + w) (v % 256))

/-- The per-packet parser state: the ingress port, the binding table, the
VLAN flag, the DHCP option table, and (as instrumentation of the model)
the list of buffer positions dereferenced by the DHCP option scanner. -/
structure ParserState where
  in_port : Nat
  bindings : Bindings
  vlan_tagged : Bool
  dhcp_options : DhcpMap
  scanReads : List Nat

/-- The freshly constructed state, before any field is bound.  The C++
vlan_tagged member is declared in the header (outside the parser core);
it is modelled as initially false. -/
def initState (port : Nat) : ParserState :=
  ⟨port, emptyBindings, false, fun _ => none, []⟩

namespace PacketParser

/-- PacketParser::bind: for each (field, location) entry in order, asserts
the slot currently unbound (null), then sets it; a violation is fatal. -/
def bind (b : Bindings) : List (Fid × Option Loc) → Except PErr Bindings
  | [] => .ok b
  | e :: rest =>
    if (getB b e.1).isSome then .error .alreadyBound
    else bind (setB b e.1 e.2) rest

/-- PacketParser::rebind: symmetric; each slot must currently be bound and
is overwritten. -/
def rebind (b : Bindings) : List (Fid × Option Loc) → Except PErr Bindings
  | [] => .ok b
  | e :: rest =>
    if (getB b e.1).isSome then rebind (setB b e.1 e.2) rest
    else .error .rebindUnbound

/-- bind lifted to the parser state. -/
def bindSt (st : ParserState) (l : List (Fid × Option Loc)) :
    Except PErr ParserState :=
  match bind st.bindings l with
  | .error e => .error e
  | .ok b => .ok { st with bindings := b }

/-- Sequencing of fallible parser steps (a fatal assert aborts parsing). -/
def exBind (x : Except PErr ParserState)
    (f : ParserState → Except PErr ParserState) : Except PErr ParserState :=
  match x with
  | .error e => .error e
  | .ok st => f st

/-- The DHCP option scan loop of PacketParser::parse_dhcp, lines 290-307:
cursor i over the options region (byte position off + 34 + i of the
buffer), a flag set once the magic cookie has been seen, the option table,
and the recorded list of dereferenced positions.  The C++ for-loop runs
while i is at most bound = data_len - 34 and increases i by at least one
per iteration, so a fuel of bound + 1 - i (and hence any fuel with
bound + 1 <= fuel + i, as at the top-level call) makes the fueled
recursion exit exactly when the C++ loop does. -/
def dhcpScanLoop (pkt : Packet) (off bound : Nat) :
    Nat → Nat → Bool → DhcpMap → List Nat → DhcpMap × List Nat
  | 0, _, _, m, rds => (m, rds)
  | fuel + 1, i, flag, m, rds =>
    if i ≤ bound then
      if flag then
        if read8 pkt (off + 34 + i) = 255 then (m, rds ++ [off + 34 + i])
        else
          dhcpScanLoop pkt off bound fuel
            (i + read8 pkt (off + 34 + i + 1) + 2) flag
            (mapInsert m (read8 pkt (off + 34 + i))
              ⟨read8 pkt (off + 34 + i), read8 pkt (off + 34 + i + 1),
               (pkt.drop (off + 34 + i + 2)).take (read8 pkt (off + 34 + i + 1))⟩)
            (rds ++ [off + 34 + i, off + 34 + i + 1])
      else
        if read8 pkt (off + 34 + i) = 0x63 then
          if i + 1 ≤ bound then
            if read8 pkt (off + 34 + i + 1) = 0x82 then
              if i + 2 ≤ bound then
                if read8 pkt (off + 34 + i + 2) = 0x53 then
                  if i + 3 ≤ bound then
                    if read8 pkt (off + 34 + i + 3) = 0x63 then
                      dhcpScanLoop pkt off bound fuel (i + 4) true m
                        (rds ++ [off + 34 + i, off + 34 + i + 1,
                                 off + 34 + i + 2, off + 34 + i + 3])
                    else
                      dhcpScanLoop pkt off bound fuel (i + 1) false m
                        (rds ++ [off + 34 + i, off + 34 + i + 1,
                                 off + 34 + i + 2, off + 34 + i + 3])
                  else
                    dhcpScanLoop pkt off bound fuel (i + 1) false m
                      (rds ++ [off + 34 + i, off + 34 + i + 1, off + 34 + i + 2])
                else
                  dhcpScanLoop pkt off bound fuel (i + 1) false m
                    (rds ++ [off + 34 + i, off + 34 + i + 1, off + 34 + i + 2])
              else
                dhcpScanLoop pkt off bound fuel (i + 1) false m
                  (rds ++ [off + 34 + i, off + 34 + i + 1])
            else
              dhcpScanLoop pkt off bound fuel (i + 1) false m
                (rds ++ [off + 34 + i, off + 34 + i + 1])
          else
            dhcpScanLoop pkt off bound fuel (i + 1) false m (rds ++ [off + 34 + i])
        else
          dhcpScanLoop pkt off bound fuel (i + 1) false m (rds ++ [off + 34 + i])
    else (m, rds)

/-- The full DHCP option scan over the region of len bytes starting at
off (called with 34 ≤ len); bound = len - 34 as in the C++ loop. -/
def dhcpScan (pkt : Packet) (off len : Nat) (m : DhcpMap) :
    DhcpMap × List Nat :=
  dhcpScanLoop pkt off (len - 34) (len - 34 + 1) 0 false m []

/-- PacketParser::parse_dhcp, lines 279-309: requires a 34-byte fixed
header, binds the DHCP fields, then runs the option scan. -/
def parse_dhcp (pkt : Packet) (off len : Nat) (st : ParserState) :
    Except PErr ParserState :=
  if 34 ≤ len then
    exBind (bindSt st
      [(.DHCP_OP, some (.buf off)), (.DHCP_XID, some (.buf (off + 4))),
       (.DHCP_CIADDR, some (.buf (off + 12))), (.DHCP_YIADDR, some (.buf (off + 16))),
       (.DHCP_CHADDR, some (.buf (off + 28)))])
      (fun st2 =>
        .ok { st2 with
              dhcp_options := (dhcpScan pkt off len st2.dhcp_options).1,
              scanReads := st2.scanReads ++ (dhcpScan pkt off len st2.dhcp_options).2 })
  else .ok st

/-- PacketParser::parse_l4, lines 245-276. -/
def parse_l4 (protocol : Nat) (pkt : Packet) (off len : Nat)
    (st : ParserState) : Except PErr ParserState :=
  if protocol = 6 then
    if 20 ≤ len then
      bindSt st [(.TCP_SRC, some (.buf off)), (.TCP_DST, some (.buf (off + 2)))]
    else .ok st
  else if protocol = 17 then
    if 8 ≤ len then
      exBind (bindSt st
        [(.UDP_SRC, some (.buf off)), (.UDP_DST, some (.buf (off + 2)))])
        (fun st2 =>
          if 8 < len then
            if read16 pkt off = 68 ∧ read16 pkt (off + 2) = 67 then
              parse_dhcp pkt (off + 8) (len - 8) st2
            else .ok st2
          else .ok st2)
    else .ok st
  else .ok st

/-- PacketParser::parse_l3, lines 203-243.  For IPv4 the header length is
ihl times 4 where ihl is the low nibble of the first header byte; the ARP
branch validates the four header constants and silently skips on
mismatch. -/
def parse_l3 (eth_type : Nat) (pkt : Packet) (off len : Nat)
    (st : ParserState) : Except PErr ParserState :=
  if eth_type = 0x0800 then
    if 20 ≤ len then
      exBind (bindSt st
        [(.IP_PROTO, some (.buf (off + 9))), (.IPV4_SRC, some (.buf (off + 12))),
         (.IPV4_DST, some (.buf (off + 16)))])
        (fun st2 =>
          if (read8 pkt off % 16) * 4 < len then
            parse_l4 (read8 pkt (off + 9)) pkt (off + (read8 pkt off % 16) * 4)
              (len - (read8 pkt off % 16) * 4) st2
          else .ok st2)
    else .ok st
  else if eth_type = 0x0806 then
    if 28 ≤ len then
      if read16 pkt off = 1 ∧ read16 pkt (off + 2) = 0x0800 ∧
         read8 pkt (off + 4) = 6 ∧ read8 pkt (off + 5) = 4 then
        bindSt st
          [(.ARP_OP, some (.buf (off + 6))), (.ARP_SHA, some (.buf (off + 8))),
           (.ARP_THA, some (.buf (off + 18))), (.ARP_SPA, some (.buf (off + 14))),
           (.ARP_TPA, some (.buf (off + 24)))]
      else .ok st
    else .ok st
  else .ok st

/-- PacketParser::parse_l2, lines 168-201.  Note the two slips of the C++
code, both modelled faithfully: the VLAN branch performs no 18-byte check
before overlaying the 802.1Q header, and the network layer is entered at
offset 18 but with remaining length data_len - 14 (eth->header_length()
is 14 even for the tagged frame). -/
def parse_l2 (pkt : Packet) (data_len : Nat) (st : ParserState) :
    Except PErr ParserState :=
  if 14 ≤ data_len then
    if read16 pkt 12 = 0x8100 then
      exBind (bindSt { st with vlan_tagged := true }
        [(.ETH_TYPE, some (.buf 16)), (.ETH_SRC, some (.buf 6)),
         (.ETH_DST, some (.buf 0)), (.VLAN_VID, some (.buf 14))])
        (fun st2 => parse_l3 (read16 pkt 16) pkt 18 (data_len - 14) st2)
    else
      exBind (bindSt { st with vlan_tagged := false }
        [(.ETH_TYPE, some (.buf 12)), (.ETH_SRC, some (.buf 6)),
         (.ETH_DST, some (.buf 0)), (.VLAN_VID, none)])
        (fun st2 => parse_l3 (read16 pkt 12) pkt 14 (data_len - 14) st2)
  else .ok st

/-- The PacketParser constructor, lines 320-333: clear the table, bind the
ingress port, then run the layered parse over the whole buffer. -/
def parsePacket (pkt : Packet) (port : Nat) : Except PErr ParserState :=
  exBind (bindSt (initState port) [(.IN_PORT, some .inPort)])
    (fun st => parse_l2 pkt pkt.length st)

/-- PacketParser::access, lines 335-341: resolve a field to its bound
location; fatal if unbound (all Fid constructors lie in the supported
OPENFLOW_BASIC namespace, so the namespace assert cannot fire here). -/
def access (st : ParserState) (f : Fid) : Except PErr Loc :=
  match getB st.bindings f with
  | some loc => .ok loc
  | none => .error .unsupportedField

/-- Modelled from the spec: the declared bit width of each canonical
field.  The field registry (oxm type definitions) is outside the parser
source; widths follow section 4.1 of the spec, with the VLAN id being the
12-bit sub-field of the 16-bit TCI. -/
def fieldNbits : Fid → Nat
  | .IN_PORT => 32
  | .ETH_TYPE => 16
  | .ETH_SRC => 48
  | .ETH_DST => 48
  | .VLAN_VID => 12
  | .IP_PROTO => 8
  | .IPV4_SRC => 32
  | .IPV4_DST => 32
  | .ARP_OP => 16
  | .ARP_SHA => 48
  | .ARP_THA => 48
  | .ARP_SPA => 32
  | .ARP_TPA => 32
  | .TCP_SRC => 16
  | .TCP_DST => 16
  | .UDP_SRC => 16
  | .UDP_DST => 16
  | .DHCP_OP => 8
  | .DHCP_XID => 32
  | .DHCP_CIADDR => 32
  | .DHCP_YIADDR => 32
  | .DHCP_CHADDR => 48

/-- Bytes covered by a field at its bound location. -/
def fieldBytes (f : Fid) : Nat := (fieldNbits f + 7) / 8

/-- PacketParser::load, lines 343-347.  Modelled from the spec for the
bit-string part (the bits type is outside the parser source): read the
field's declared bit width of big-endian bits at the bound location (the
low nbits of the covered bytes) and AND with the supplied mask. -/
def load (pkt : Packet) (st : ParserState) (f : Fid) (mask : Nat) :
    Except PErr Nat :=
  match access st f with
  | .error e => .error e
  | .ok .inPort => .ok ((st.in_port % 2 ^ fieldNbits f) &&& mask)
  | .ok (.buf off) =>
    .ok ((readBE pkt off (fieldBytes f) % 2 ^ fieldNbits f) &&& mask)

/-- PacketParser::modify, lines 349-354.  Modelled from the spec for the
bit-string part: read-modify-write at the bound location, replacing
exactly the bits selected by the patch mask with the patch value bits and
writing the result back in place.  A location pointing at the stored
ingress-port member does not touch the packet buffer. -/
def modify (pkt : Packet) (st : ParserState) (f : Fid) (val mask : Nat) :
    Except PErr Packet :=
  match access st f with
  | .error e => .error e
  | .ok .inPort => .ok pkt
  | .ok (.buf off) =>
    .ok (writeBE pkt off (fieldBytes f)
          ((readBE pkt off (fieldBytes f) &&&
            ((2 ^ (8 * fieldBytes f) - 1) ^^^ mask)) ||| (val &&& mask)))

/-- PacketParser::vlanTagged, lines 356-359. -/
def vlanTagged (st : ParserState) : Bool := st.vlan_tagged

/-- PacketParser::get_dhcp_option, lines 311-318: table lookup with the
empty sentinel for absent codes. -/
def get_dhcp_option (st : ParserState) (code : Nat) : DhcpOpt :=
  match st.dhcp_options code with
  | none => emptyDhcpOpt
  | some e => e

end PacketParser

/-- The scan-read positions of a parse result (empty on a fatal error). -/
def scanReadsOf (r : Except PErr ParserState) : List Nat :=
  match r with
  | .ok st => st.scanReads
  | .error _ => []

/-- The binding table of a parse result (empty on a fatal error). -/
def bindingsOf (r : Except PErr ParserState) : Bindings :=
  match r with
  | .ok st => st.bindings
  | .error _ => emptyBindings

/-- The VLAN flag of a parse result (false on a fatal error). -/
def flagOf (r : Except PErr ParserState) : Bool :=
  match r with
  | .ok st => st.vlan_tagged
  | .error _ => false

/-- The state right after construction bound the ingress port: only the
IN_PORT slot is set. -/
def initBound (port : Nat) : ParserState :=
  ⟨port,
   ⟨some .inPort, none, none, none, none, none, none, none, none, none, none,
    none, none, none, none, none, none, none, none, none, none, none⟩,
   false, fun _ => none, []⟩

/-- Encoding of a DHCP (code, value) option list as the on-wire TLV byte
sequence: code byte, length byte, value bytes. -/
def encodeOpts : List (Nat × List Nat) → List Nat
  | [] => []
  | (c, v) :: rest => c :: v.length :: (v ++ encodeOpts rest)

/-- The most recently listed value for a code (later entries win). -/
def lastVal (c : Nat) : List (Nat × List Nat) → Option (List Nat)
  | [] => none
  | (c0, v0) :: rest =>
    match lastVal c rest with
    | some v => some v
    | none => if c0 = c then some v0 else none

/-- The option table the spec promises for a scanned well-formed list:
each scanned code maps to its most recently scanned entry, absent codes
give the empty sentinel. -/
def optSpec (c : Nat) (opts : List (Nat × List Nat)) : DhcpOpt :=
  match lastVal c opts with
  | some v => ⟨c, v.length, v⟩
  | none => emptyDhcpOpt

/-- Sequential insertion of a scanned option list into the table. -/
def insertAll (m : DhcpMap) (opts : List (Nat × List Nat)) : DhcpMap :=
  opts.foldl (fun m2 p => mapInsert m2 p.1 ⟨p.1, p.2.length, p.2⟩) m

/-- Well-formedness of an option list as byte data: codes are bytes other
than the 0xFF terminator, values are at most 255 bytes of byte values. -/
def wfOpts (opts : List (Nat × List Nat)) : Prop :=
  ∀ p ∈ opts, p.1 < 255 ∧ p.2.length ≤ 255 ∧ ∀ b ∈ p.2, b < 256

/-- The link-layer outcome (ingress port, Ethernet and VLAN bindings, the
VLAN flag) is the same in two states: used to state that the deeper
parsing layers never touch what the link layer established. -/
def l2same (st st2 : ParserState) : Prop :=
  st2.in_port = st.in_port ∧
  st2.bindings.inPort = st.bindings.inPort ∧
  st2.bindings.ethType = st.bindings.ethType ∧
  st2.bindings.ethSrc = st.bindings.ethSrc ∧
  st2.bindings.ethDst = st.bindings.ethDst ∧
  st2.bindings.vlanVid = st.bindings.vlanVid ∧
  st2.vlan_tagged = st.vlan_tagged

/-- A 14-byte frame whose ethertype field holds 0x8100. -/
def pkt14 : Packet := [0, 0, 0, 0, 0, 0, 0, 0, 0, 0, 0, 0, 0x81, 0x00]

/-- A 34-byte VLAN-tagged frame with inner ethertype IPv4 and ihl 5:
18 tag bytes, then only 16 bytes of what the code takes for an IPv4
header. -/
def pkt34 : Packet :=
  pkt14 ++ [0, 0, 0x08, 0x00, 0x45] ++ List.replicate 15 0

/-- An 18-byte VLAN-tagged frame: TCI 0xA005 (priority 5, VID 5), inner
ethertype 0x1234. -/
def pkt18 : Packet := pkt14 ++ [0xA0, 0x05, 0x12, 0x34]

/-- A 14-byte untagged Ethernet header with ethertype IPv4. -/
def ethHdr14 : Packet := [0, 0, 0, 0, 0, 0, 0, 0, 0, 0, 0, 0, 0x08, 0x00]

/-- A 20-byte IPv4 header with ihl 5 and protocol 17 (UDP). -/
def ipv4Hdr20 : Packet :=
  [0x45, 0, 0, 0, 0, 0, 0, 0, 0, 17, 0, 0, 0, 0, 0, 0, 0, 0, 0, 0]

/-- An 8-byte UDP header with source port 68 and destination port 67. -/
def udpHdr8 : Packet := [0, 68, 0, 67, 0, 0, 0, 0]

/-- A 76-byte packet whose DHCP region is exactly the 34-byte fixed
header: Ethernet + IPv4 + UDP 68 to 67 + 34 zero bytes. -/
def pkt76 : Packet :=
  ethHdr14 ++ ipv4Hdr20 ++ udpHdr8 ++ List.replicate 34 0

/-- The 80-byte prefix of a DHCP packet up to and including the magic
cookie. -/
def pref80 : Packet := pkt76 ++ [0x63, 0x82, 0x53, 0x63]

/-- A full DHCP packet carrying the given option list and terminator. -/
def mkDhcpPkt (opts : List (Nat × List Nat)) : Packet :=
  pref80 ++ (encodeOpts opts ++ [255])

/-- A 13-byte (too short) buffer. -/
def pkt13 : Packet := List.replicate 13 0

/-- A 42-byte frame dispatched to ARP parsing whose hardware type is 2
(invalid): ethertype 0x0806, then a 28-byte ARP header with htype 2,
ptype 0x0800, hlen 6, plen 4. -/
def pktArp : Packet :=
  [0, 0, 0, 0, 0, 0, 0, 0, 0, 0, 0, 0, 0x08, 0x06,
   0, 2, 0x08, 0x00, 6, 4] ++ List.replicate 22 0

/-- A state in which only the VLAN-id field is bound, at the TCI location
of an 18-byte tagged frame: used to exercise modify. -/
def stVlan : ParserState :=
  ⟨0, { emptyBindings with vlanVid := some (.buf 14) }, true,
   fun _ => none, []⟩

/-! ## Theorems -/

theorem getB_setB_same (b : Bindings) (f : Fid) (v : Option Loc) :
    getB (setB b f v) f = v := by
  cases f <;> rfl

theorem getB_setB_ne (b : Bindings) (f f2 : Fid) (v : Option Loc)
    (h : f2 ≠ f) : getB (setB b f v) f2 = getB b f2 := by
  cases f <;> cases f2 <;> first
    | rfl
    | exact absurd rfl h

theorem exBind_ok (st : ParserState)
    (f : ParserState → Except PErr ParserState) :
    PacketParser.exBind (.ok st) f = f st := rfl

/-- The constructor state after the IN_PORT bind. -/
theorem parsePacket_eq_l2 (pkt : Packet) (port : Nat) :
    PacketParser.parsePacket pkt port =
      PacketParser.parse_l2 pkt pkt.length (initBound port) := rfl

/-- C1: the claim says a frame with ethertype 0x8100 has the 802.1Q tag
read and link-layer fields bound only when the buffer holds at least 18
bytes.  The code has no such check: on this 14-byte frame it still binds
the VLAN id to the TCI location at offset 14 and the ethertype to the
inner-type location at offset 16, both beyond the claimed limit. -/
theorem c1_truncated_vlan_binds :
    pkt14.length = 14 ∧
    getB (bindingsOf (PacketParser.parsePacket pkt14 0)) .VLAN_VID =
      some (.buf 14) ∧
    getB (bindingsOf (PacketParser.parsePacket pkt14 0)) .ETH_TYPE =
      some (.buf 16) ∧
    flagOf (PacketParser.parsePacket pkt14 0) = true := by
  refine ⟨rfl, rfl, rfl, rfl⟩

/-- C2: the claim says IPv4 fields of a VLAN-tagged frame are bound only
when the total buffer length is at least 38.  The code advances to offset
18 but passes remaining length data_len - 14, so on this 34-byte tagged
frame it still binds the IPv4 fields, the destination address at offset
34 which is past the end of the buffer. -/
theorem c2_vlan_ipv4_bound_at_34 :
    pkt34.length = 34 ∧
    getB (bindingsOf (PacketParser.parsePacket pkt34 0)) .IPV4_DST =
      some (.buf 34) ∧
    getB (bindingsOf (PacketParser.parsePacket pkt34 0)) .IP_PROTO =
      some (.buf 27) := by
  refine ⟨rfl, rfl, rfl⟩

/-- C3: the claim says the DHCP option scanner never reads a byte at or
past the end of the buffer.  The scan loop runs while i is at most
data_len - 34, so on this 76-byte packet whose DHCP region is exactly the
34-byte fixed header it dereferences position 76, one past the end. -/
theorem c3_dhcp_scan_reads_past_end :
    pkt76.length = 76 ∧
    scanReadsOf (PacketParser.parsePacket pkt76 0) = [76] := by
  refine ⟨rfl, rfl⟩

/-- C5: a buffer shorter than 14 bytes leaves every protocol field
unbound while the ingress-port binding stands. -/
theorem c5_short_buffer_only_port (pkt : Packet) (port : Nat)
    (h : pkt.length < 14) :
    ∃ st, PacketParser.parsePacket pkt port = .ok st ∧
      getB st.bindings .IN_PORT = some .inPort ∧
      ∀ f, f ≠ Fid.IN_PORT → getB st.bindings f = none := by
  refine ⟨initBound port, ?_, rfl, ?_⟩
  · rw [parsePacket_eq_l2]
    unfold PacketParser.parse_l2
    rw [if_neg (by omega)]
  · intro f hf
    cases f <;> first
      | exact absurd rfl hf
      | rfl

theorem c5_short_buffer_only_port_witness :
    pkt13.length < 14 ∧
    ∃ st, PacketParser.parsePacket pkt13 9 = .ok st ∧
      getB st.bindings .IN_PORT = some .inPort ∧
      ∀ f, f ≠ Fid.IN_PORT → getB st.bindings f = none :=
  ⟨by decide, c5_short_buffer_only_port pkt13 9 (by decide)⟩

/-- bind succeeds when every listed slot is unbound and the listed fields
are distinct, setting exactly the listed slots. -/
theorem bind_ok_of_unbound :
    ∀ (l : List (Fid × Option Loc)) (b : Bindings),
    (∀ e ∈ l, getB b e.1 = none) → (l.map Prod.fst).Nodup →
    ∃ b2, PacketParser.bind b l = .ok b2 ∧
      (∀ e ∈ l, getB b2 e.1 = e.2) ∧
      ∀ f, f ∉ l.map Prod.fst → getB b2 f = getB b f := by
  intro l
  induction l with
  | nil =>
    intro b _ _
    exact ⟨b, rfl, by simp, fun f _ => rfl⟩
  | cons e rest ih =>
    intro b hun hnd
    rw [List.map_cons, List.nodup_cons] at hnd
    have he : getB b e.1 = none := hun e (by simp)
    have hmem : e.1 ∉ rest.map Prod.fst := hnd.1
    obtain ⟨b2, hrun, hset, hpres⟩ := ih (setB b e.1 e.2)
      (fun x hx => by
        have hne : x.1 ≠ e.1 := by
          intro hEq
          exact hmem (hEq ▸ List.mem_map_of_mem Prod.fst hx)
        rw [getB_setB_ne b e.1 x.1 e.2 hne]
        exact hun x (by simp [hx]))
      hnd.2
    refine ⟨b2, ?_, ?_, ?_⟩
    · unfold PacketParser.bind
      rw [he]
      exact hrun
    · intro x hx
      rcases List.mem_cons.mp hx with rfl | hx2
      · rw [hpres x.1 hmem, getB_setB_same]
      · exact hset x hx2
    · intro f hf
      have hf1 : f ≠ e.1 := by
        intro hEq
        exact hf (by simp [hEq])
      have hf2 : f ∉ rest.map Prod.fst := by
        intro hIn
        exact hf (by simp [hIn])
      rw [hpres f hf2, getB_setB_ne b e.1 f e.2 hf1]

/-- bind fails fatally when some listed slot is already bound. -/
theorem bind_error_of_bound :
    ∀ (l : List (Fid × Option Loc)) (b : Bindings),
    (∃ e ∈ l, (getB b e.1).isSome) →
    PacketParser.bind b l = .error .alreadyBound := by
  intro l
  induction l with
  | nil =>
    intro b h
    obtain ⟨e, he, _⟩ := h
    exact absurd he (List.not_mem_nil e)
  | cons e rest ih =>
    intro b h
    by_cases hb : (getB b e.1).isSome
    · unfold PacketParser.bind
      rw [if_pos hb]
    · obtain ⟨x, hx, hxb⟩ := h
      rcases List.mem_cons.mp hx with rfl | hx2
      · exact absurd hxb hb
      · have hne : x.1 ≠ e.1 := by
          intro hEq
          rw [hEq] at hxb
          exact hb hxb
        unfold PacketParser.bind
        rw [if_neg hb]
        exact ih (setB b e.1 e.2)
          ⟨x, hx2, by rw [getB_setB_ne b e.1 x.1 e.2 hne]; exact hxb⟩

/-- rebind succeeds when every listed slot is bound and the listed fields
are distinct, overwriting exactly the listed slots. -/
theorem rebind_ok_of_bound :
    ∀ (l : List (Fid × Option Loc)) (b : Bindings),
    (∀ e ∈ l, (getB b e.1).isSome) → (l.map Prod.fst).Nodup →
    ∃ b2, PacketParser.rebind b l = .ok b2 ∧
      (∀ e ∈ l, getB b2 e.1 = e.2) ∧
      ∀ f, f ∉ l.map Prod.fst → getB b2 f = getB b f := by
  intro l
  induction l with
  | nil =>
    intro b _ _
    exact ⟨b, rfl, by simp, fun f _ => rfl⟩
  | cons e rest ih =>
    intro b hbnd hnd
    rw [List.map_cons, List.nodup_cons] at hnd
    have he : (getB b e.1).isSome := hbnd e (by simp)
    have hmem : e.1 ∉ rest.map Prod.fst := hnd.1
    obtain ⟨b2, hrun, hset, hpres⟩ := ih (setB b e.1 e.2)
      (fun x hx => by
        have hne : x.1 ≠ e.1 := by
          intro hEq
          exact hmem (hEq ▸ List.mem_map_of_mem Prod.fst hx)
        rw [getB_setB_ne b e.1 x.1 e.2 hne]
        exact hbnd x (by simp [hx]))
      hnd.2
    refine ⟨b2, ?_, ?_, ?_⟩
    · unfold PacketParser.rebind
      rw [if_pos he]
      exact hrun
    · intro x hx
      rcases List.mem_cons.mp hx with rfl | hx2
      · rw [hpres x.1 hmem, getB_setB_same]
      · exact hset x hx2
    · intro f hf
      have hf1 : f ≠ e.1 := by
        intro hEq
        exact hf (by simp [hEq])
      have hf2 : f ∉ rest.map Prod.fst := by
        intro hIn
        exact hf (by simp [hIn])
      rw [hpres f hf2, getB_setB_ne b e.1 f e.2 hf1]

/-- rebind fails fatally when some listed slot is unbound. -/
theorem rebind_error_of_unbound :
    ∀ (l : List (Fid × Option Loc)) (b : Bindings),
    (∃ e ∈ l, getB b e.1 = none) →
    PacketParser.rebind b l = .error .rebindUnbound := by
  intro l
  induction l with
  | nil =>
    intro b h
    obtain ⟨e, he, _⟩ := h
    exact absurd he (List.not_mem_nil e)
  | cons e rest ih =>
    intro b h
    by_cases hb : (getB b e.1).isSome
    · obtain ⟨x, hx, hxn⟩ := h
      rcases List.mem_cons.mp hx with rfl | hx2
      · rw [hxn] at hb
        exact absurd hb (by simp)
      · have hne : x.1 ≠ e.1 := by
          intro hEq
          rw [hEq] at hxn
          rw [hxn] at hb
          simp at hb
        unfold PacketParser.rebind
        rw [if_pos hb]
        exact ih (setB b e.1 e.2)
          ⟨x, hx2, by rw [getB_setB_ne b e.1 x.1 e.2 hne]; exact hxn⟩
    · unfold PacketParser.rebind
      rw [if_neg hb]

/-- C8: the bind and rebind contracts.  bind fails fatally on any entry
whose slot is currently bound and otherwise (distinct unbound slots) sets
each listed slot to its given location, leaving the rest alone; rebind is
symmetric, failing fatally on unbound slots and overwriting bound ones. -/
theorem c8_bind_rebind_contract (b : Bindings) (l : List (Fid × Option Loc)) :
    ((∀ e ∈ l, getB b e.1 = none) → (l.map Prod.fst).Nodup →
      ∃ b2, PacketParser.bind b l = .ok b2 ∧
        (∀ e ∈ l, getB b2 e.1 = e.2) ∧
        ∀ f, f ∉ l.map Prod.fst → getB b2 f = getB b f) ∧
    ((∃ e ∈ l, (getB b e.1).isSome) →
      PacketParser.bind b l = .error .alreadyBound) ∧
    ((∀ e ∈ l, (getB b e.1).isSome) → (l.map Prod.fst).Nodup →
      ∃ b2, PacketParser.rebind b l = .ok b2 ∧
        (∀ e ∈ l, getB b2 e.1 = e.2) ∧
        ∀ f, f ∉ l.map Prod.fst → getB b2 f = getB b f) ∧
    ((∃ e ∈ l, getB b e.1 = none) →
      PacketParser.rebind b l = .error .rebindUnbound) :=
  ⟨fun h1 h2 => bind_ok_of_unbound l b h1 h2,
   fun h => bind_error_of_bound l b h,
   fun h1 h2 => rebind_ok_of_bound l b h1 h2,
   fun h => rebind_error_of_unbound l b h⟩

theorem c8_bind_rebind_contract_witness :
    (∃ b2, PacketParser.bind emptyBindings
        [(Fid.ETH_TYPE, some (Loc.buf 12))] = .ok b2 ∧
      (∀ e ∈ [(Fid.ETH_TYPE, some (Loc.buf 12))], getB b2 e.1 = e.2) ∧
      ∀ f, f ∉ [(Fid.ETH_TYPE, some (Loc.buf 12))].map Prod.fst →
        getB b2 f = getB emptyBindings f) ∧
    PacketParser.rebind emptyBindings [(Fid.ETH_TYPE, some (Loc.buf 12))] =
      .error .rebindUnbound :=
  ⟨(c8_bind_rebind_contract emptyBindings
      [(Fid.ETH_TYPE, some (Loc.buf 12))]).1 (by decide) (by decide),
   (c8_bind_rebind_contract emptyBindings
      [(Fid.ETH_TYPE, some (Loc.buf 12))]).2.2.2
     ⟨(Fid.ETH_TYPE, some (Loc.buf 12)), by decide, rfl⟩⟩

/-- C7: a buffer dispatched to ARP parsing with an invalid hardware type,
protocol type, hardware length or protocol length leaves the state
untouched (no ARP binding, no error), and accessing any ARP field of the
resulting state is the fatal unbound-field contract violation. -/
theorem c7_arp_invalid_no_bind (pkt : Packet) (off len : Nat)
    (st : ParserState) (h28 : 28 ≤ len)
    (hbad : read16 pkt off ≠ 1 ∨ read16 pkt (off + 2) ≠ 0x0800 ∨
            read8 pkt (off + 4) ≠ 6 ∨ read8 pkt (off + 5) ≠ 4)
    (hun : getB st.bindings .ARP_OP = none ∧ getB st.bindings .ARP_SHA = none ∧
           getB st.bindings .ARP_THA = none ∧ getB st.bindings .ARP_SPA = none ∧
           getB st.bindings .ARP_TPA = none) :
    PacketParser.parse_l3 0x0806 pkt off len st = .ok st ∧
    ∀ f, (f = Fid.ARP_OP ∨ f = Fid.ARP_SHA ∨ f = Fid.ARP_THA ∨
          f = Fid.ARP_SPA ∨ f = Fid.ARP_TPA) →
      PacketParser.access st f = .error .unsupportedField := by
  constructor
  · unfold PacketParser.parse_l3
    rw [if_neg (by decide), if_pos (by decide : (0x0806 : Nat) = 0x0806),
      if_pos h28, if_neg (by tauto)]
  · intro f hf
    obtain ⟨h1, h2, h3, h4, h5⟩ := hun
    rcases hf with rfl | rfl | rfl | rfl | rfl <;>
      simp [PacketParser.access, h1, h2, h3, h4, h5]

theorem c7_arp_invalid_no_bind_witness :
    (28 ≤ 28 ∧ read16 pktArp 14 ≠ 1) ∧
    PacketParser.parse_l3 0x0806 pktArp 14 28 (initState 0) =
      .ok (initState 0) ∧
    PacketParser.access (initState 0) Fid.ARP_OP =
      .error .unsupportedField := by
  refine ⟨⟨le_refl 28, by decide⟩, ?_, ?_⟩
  · exact (c7_arp_invalid_no_bind pktArp 14 28 (initState 0) (le_refl 28)
      (Or.inl (by decide)) ⟨rfl, rfl, rfl, rfl, rfl⟩).1
  · exact (c7_arp_invalid_no_bind pktArp 14 28 (initState 0) (le_refl 28)
      (Or.inl (by decide)) ⟨rfl, rfl, rfl, rfl, rfl⟩).2 Fid.ARP_OP (Or.inl rfl)

theorem l2same_refl (st : ParserState) : l2same st st :=
  ⟨rfl, rfl, rfl, rfl, rfl, rfl, rfl⟩

theorem l2same_trans {st st2 st3 : ParserState}
    (h : l2same st st2) (h2 : l2same st2 st3) : l2same st st3 := by
  obtain ⟨a1, a2, a3, a4, a5, a6, a7⟩ := h
  obtain ⟨b1, b2, b3, b4, b5, b6, b7⟩ := h2
  exact ⟨b1.trans a1, b2.trans a2, b3.trans a3, b4.trans a4,
         b5.trans a5, b6.trans a6, b7.trans a7⟩

/-- The DHCP layer always succeeds from a state whose DHCP slots are
unbound, and never touches the link-layer outcome. -/
theorem parse_dhcp_ok (pkt : Packet) (off len : Nat) (st : ParserState)
    (h1 : st.bindings.dhcpOp = none) (h2 : st.bindings.dhcpXid = none)
    (h3 : st.bindings.dhcpCiaddr = none) (h4 : st.bindings.dhcpYiaddr = none)
    (h5 : st.bindings.dhcpChaddr = none) :
    ∃ st2, PacketParser.parse_dhcp pkt off len st = .ok st2 ∧ l2same st st2 := by
  unfold PacketParser.parse_dhcp
  by_cases h : 34 ≤ len
  · rw [if_pos h]
    simp only [PacketParser.bindSt, PacketParser.bind, PacketParser.exBind,
      getB, setB, h1, h2, h3, h4, h5, Option.isSome_none, Bool.false_eq_true,
      if_false]
    exact ⟨_, rfl, by simp [l2same]⟩
  · rw [if_neg h]
    exact ⟨st, rfl, l2same_refl st⟩

/-- The transport layer always succeeds from a state whose transport and
DHCP slots are unbound, and never touches the link-layer outcome. -/
theorem parse_l4_ok (protocol : Nat) (pkt : Packet) (off len : Nat)
    (st : ParserState)
    (ht1 : st.bindings.tcpSrc = none) (ht2 : st.bindings.tcpDst = none)
    (hu1 : st.bindings.udpSrc = none) (hu2 : st.bindings.udpDst = none)
    (h1 : st.bindings.dhcpOp = none) (h2 : st.bindings.dhcpXid = none)
    (h3 : st.bindings.dhcpCiaddr = none) (h4 : st.bindings.dhcpYiaddr = none)
    (h5 : st.bindings.dhcpChaddr = none) :
    ∃ st2, PacketParser.parse_l4 protocol pkt off len st = .ok st2 ∧
      l2same st st2 := by
  unfold PacketParser.parse_l4
  by_cases hp6 : protocol = 6
  · rw [if_pos hp6]
    by_cases h20 : 20 ≤ len
    · rw [if_pos h20]
      simp only [PacketParser.bindSt, PacketParser.bind, getB, setB,
        ht1, ht2, Option.isSome_none, Bool.false_eq_true, if_false]
      exact ⟨_, rfl, by simp [l2same]⟩
    · rw [if_neg h20]
      exact ⟨st, rfl, l2same_refl st⟩
  · rw [if_neg hp6]
    by_cases hp17 : protocol = 17
    · rw [if_pos hp17]
      by_cases h8 : 8 ≤ len
      · rw [if_pos h8]
        simp only [PacketParser.bindSt, PacketParser.bind, PacketParser.exBind,
          getB, setB, hu1, hu2, Option.isSome_none, Bool.false_eq_true,
          if_false]
        by_cases hlt : 8 < len
        · rw [if_pos hlt]
          by_cases hpt : read16 pkt off = 68 ∧ read16 pkt (off + 2) = 67
          · rw [if_pos hpt]
            obtain ⟨st3, hrun, hsame⟩ := parse_dhcp_ok pkt (off + 8) (len - 8)
              { st with bindings :=
                  { st.bindings with udpSrc := some (.buf off),
                                     udpDst := some (.buf (off + 2)) } }
              (by simp [h1]) (by simp [h2]) (by simp [h3])
              (by simp [h4]) (by simp [h5])
            refine ⟨st3, ?_, l2same_trans (by simp [l2same]) hsame⟩
            exact hrun
          · rw [if_neg hpt]
            exact ⟨_, rfl, by simp [l2same]⟩
        · rw [if_neg hlt]
          exact ⟨_, rfl, by simp [l2same]⟩
      · rw [if_neg h8]
        exact ⟨st, rfl, l2same_refl st⟩
    · rw [if_neg hp17]
      exact ⟨st, rfl, l2same_refl st⟩

/-- The network layer always succeeds from a state whose network-layer
and deeper slots are unbound, and never touches the link-layer outcome. -/
theorem parse_l3_ok (eth_type : Nat) (pkt : Packet) (off len : Nat)
    (st : ParserState)
    (hi1 : st.bindings.ipProto = none) (hi2 : st.bindings.ipv4Src = none)
    (hi3 : st.bindings.ipv4Dst = none)
    (ha1 : st.bindings.arpOp = none) (ha2 : st.bindings.arpSha = none)
    (ha3 : st.bindings.arpTha = none) (ha4 : st.bindings.arpSpa = none)
    (ha5 : st.bindings.arpTpa = none)
    (ht1 : st.bindings.tcpSrc = none) (ht2 : st.bindings.tcpDst = none)
    (hu1 : st.bindings.udpSrc = none) (hu2 : st.bindings.udpDst = none)
    (h1 : st.bindings.dhcpOp = none) (h2 : st.bindings.dhcpXid = none)
    (h3 : st.bindings.dhcpCiaddr = none) (h4 : st.bindings.dhcpYiaddr = none)
    (h5 : st.bindings.dhcpChaddr = none) :
    ∃ st2, PacketParser.parse_l3 eth_type pkt off len st = .ok st2 ∧
      l2same st st2 := by
  unfold PacketParser.parse_l3
  by_cases he8 : eth_type = 0x0800
  · rw [if_pos he8]
    by_cases h20 : 20 ≤ len
    · rw [if_pos h20]
      simp only [PacketParser.bindSt, PacketParser.bind, PacketParser.exBind,
        getB, setB, hi1, hi2, hi3, Option.isSome_none, Bool.false_eq_true,
        if_false]
      by_cases hihl : (read8 pkt off % 16) * 4 < len
      · rw [if_pos hihl]
        obtain ⟨st3, hrun, hsame⟩ := parse_l4_ok (read8 pkt (off + 9)) pkt
          (off + (read8 pkt off % 16) * 4) (len - (read8 pkt off % 16) * 4)
          { st with bindings :=
              { st.bindings with ipProto := some (.buf (off + 9)),
                                 ipv4Src := some (.buf (off + 12)),
                                 ipv4Dst := some (.buf (off + 16)) } }
          (by simp [ht1]) (by simp [ht2]) (by simp [hu1])
          (by simp [hu2]) (by simp [h1]) (by simp [h2])
          (by simp [h3]) (by simp [h4]) (by simp [h5])
        refine ⟨st3, ?_, l2same_trans (by simp [l2same]) hsame⟩
        exact hrun
      · rw [if_neg hihl]
        exact ⟨_, rfl, by simp [l2same]⟩
    · rw [if_neg h20]
      exact ⟨st, rfl, l2same_refl st⟩
  · rw [if_neg he8]
    by_cases he6 : eth_type = 0x0806
    · rw [if_pos he6]
      by_cases h28 : 28 ≤ len
      · rw [if_pos h28]
        by_cases hc : read16 pkt off = 1 ∧ read16 pkt (off + 2) = 0x0800 ∧
            read8 pkt (off + 4) = 6 ∧ read8 pkt (off + 5) = 4
        · rw [if_pos hc]
          simp only [PacketParser.bindSt, PacketParser.bind, getB, setB,
            ha1, ha2, ha3, ha4, ha5, Option.isSome_none, Bool.false_eq_true,
            if_false]
          exact ⟨_, rfl, by simp [l2same]⟩
        · rw [if_neg hc]
          exact ⟨st, rfl, l2same_refl st⟩
      · rw [if_neg h28]
        exact ⟨st, rfl, l2same_refl st⟩
    · rw [if_neg he6]
      exact ⟨st, rfl, l2same_refl st⟩

theorem getD_lt_256 (pkt : Packet) (h : ∀ b ∈ pkt, b < 256) (i : Nat) :
    pkt.getD i 0 < 256 := by
  by_cases hlt : i < pkt.length
  · rw [List.getD_eq_getElem pkt 0 hlt]
    exact h _ (pkt.getElem_mem hlt)
  · rw [List.getD_eq_default pkt 0 (by omega)]
    decide

theorem readBE_lt_two_pow (pkt : Packet) (h : ∀ b ∈ pkt, b < 256)
    (off : Nat) : ∀ w, readBE pkt off w < 2 ^ (8 * w) := by
  intro w
  induction w with
  | zero => simp [readBE]
  | succ w ih =>
    have hb : read8 pkt (off + w) < 256 := getD_lt_256 pkt h (off + w)
    have hpow : 2 ^ (8 * (w + 1)) = 2 ^ (8 * w) * 256 := by
      rw [Nat.mul_succ, pow_add]
      norm_num
    show 256 * readBE pkt off w + read8 pkt (off + w) < 2 ^ (8 * (w + 1))
    rw [hpow]
    calc 256 * readBE pkt off w + read8 pkt (off + w)
        < 256 * readBE pkt off w + 256 := by omega
      _ = 256 * (readBE pkt off w + 1) := by ring
      _ ≤ 256 * 2 ^ (8 * w) := Nat.mul_le_mul_left 256 ih
      _ = 2 ^ (8 * w) * 256 := Nat.mul_comm _ _

/-- The link-layer result on a tagged frame: parsing succeeds and the
final state keeps the tagged flag and the tag bindings. -/
theorem l2_tagged_result (pkt : Packet) (port : Nat)
    (h14 : 14 ≤ pkt.length) (h81 : read16 pkt 12 = 0x8100) :
    ∃ st, PacketParser.parsePacket pkt port = .ok st ∧
      st.vlan_tagged = true ∧
      st.bindings.ethType = some (.buf 16) ∧
      st.bindings.vlanVid = some (.buf 14) := by
  rw [parsePacket_eq_l2]
  unfold PacketParser.parse_l2
  rw [if_pos h14, if_pos h81]
  simp only [PacketParser.bindSt, PacketParser.bind, PacketParser.exBind,
    getB, setB, initBound, Option.isSome_none, Bool.false_eq_true, if_false]
  obtain ⟨st3, hrun, hsame⟩ := parse_l3_ok (read16 pkt 16) pkt 18
    (pkt.length - 14)
    ⟨port,
     ⟨some .inPort, some (.buf 16), some (.buf 6), some (.buf 0),
      some (.buf 14), none, none, none, none, none, none, none, none,
      none, none, none, none, none, none, none, none, none⟩,
     true, fun _ => none, []⟩
    rfl rfl rfl rfl rfl rfl rfl rfl rfl rfl rfl rfl rfl rfl rfl rfl rfl
  obtain ⟨s1, s2, s3, s4, s5, s6, s7⟩ := hsame
  exact ⟨st3, hrun, s7, s3, s6⟩

/-- The link-layer result on an untagged frame: parsing succeeds, the
flag is false, the ethertype is bound at offset 12 and the VLAN-id slot
holds the explicit no-location sentinel (none, as a never-set slot). -/
theorem l2_untagged_result (pkt : Packet) (port : Nat)
    (h14 : 14 ≤ pkt.length) (h81 : read16 pkt 12 ≠ 0x8100) :
    ∃ st, PacketParser.parsePacket pkt port = .ok st ∧
      st.vlan_tagged = false ∧
      st.bindings.ethType = some (.buf 12) ∧
      st.bindings.vlanVid = none := by
  rw [parsePacket_eq_l2]
  unfold PacketParser.parse_l2
  rw [if_pos h14, if_neg h81]
  simp only [PacketParser.bindSt, PacketParser.bind, PacketParser.exBind,
    getB, setB, initBound, Option.isSome_none, Bool.false_eq_true, if_false]
  obtain ⟨st3, hrun, hsame⟩ := parse_l3_ok (read16 pkt 12) pkt 14
    (pkt.length - 14)
    ⟨port,
     ⟨some .inPort, some (.buf 12), some (.buf 6), some (.buf 0),
      none, none, none, none, none, none, none, none, none,
      none, none, none, none, none, none, none, none, none⟩,
     false, fun _ => none, []⟩
    rfl rfl rfl rfl rfl rfl rfl rfl rfl rfl rfl rfl rfl rfl rfl rfl rfl
  obtain ⟨s1, s2, s3, s4, s5, s6, s7⟩ := hsame
  exact ⟨st3, hrun, s7, s3, s6⟩

/-- C4: with enough bytes for the tag, an ethertype of 0x8100 makes the
frame VLAN-tagged, loading the ethertype returns the inner ethertype at
offset 16, and loading the VLAN id returns the 12-bit VID sub-field of
the 16-bit TCI at offset 14; any other ethertype makes the flag false and
records the VLAN id as absent. -/
theorem c4_vlan_flag_and_fields (pkt : Packet) (port : Nat)
    (hbytes : ∀ b ∈ pkt, b < 256) (h14 : 14 ≤ pkt.length) :
    (read16 pkt 12 = 0x8100 → 18 ≤ pkt.length →
      ∃ st, PacketParser.parsePacket pkt port = .ok st ∧
        PacketParser.vlanTagged st = true ∧
        PacketParser.load pkt st .ETH_TYPE (2 ^ 16 - 1) =
          .ok (read16 pkt 16) ∧
        PacketParser.load pkt st .VLAN_VID (2 ^ 12 - 1) =
          .ok (read16 pkt 14 % 2 ^ 12)) ∧
    (read16 pkt 12 ≠ 0x8100 →
      ∃ st, PacketParser.parsePacket pkt port = .ok st ∧
        PacketParser.vlanTagged st = false ∧
        getB st.bindings .VLAN_VID = none) := by
  constructor
  · intro h81 _
    obtain ⟨st, hrun, hflag, het, hvl⟩ := l2_tagged_result pkt port h14 h81
    refine ⟨st, hrun, ?_, ?_, ?_⟩
    · unfold PacketParser.vlanTagged
      rw [hflag]
    · have he : getB st.bindings .ETH_TYPE = some (.buf 16) := het
      have h1 : readBE pkt 16 2 % 65536 = readBE pkt 16 2 :=
        Nat.mod_eq_of_lt (by
          have h := readBE_lt_two_pow pkt hbytes 16 2
          norm_num at h
          exact h)
      simp [PacketParser.load, PacketParser.access, he,
        PacketParser.fieldBytes, PacketParser.fieldNbits, read16]
      rw [h1, show (65535 : Nat) = 2 ^ 16 - 1 by norm_num,
        Nat.and_pow_two_sub_one_eq_mod,
        show (2 ^ 16 : Nat) = 65536 by norm_num]
      exact h1
    · have hv : getB st.bindings .VLAN_VID = some (.buf 14) := hvl
      simp [PacketParser.load, PacketParser.access, hv,
        PacketParser.fieldBytes, PacketParser.fieldNbits, read16]
      rw [show (4095 : Nat) = 2 ^ 12 - 1 by norm_num,
        Nat.and_pow_two_sub_one_eq_mod,
        show (2 ^ 12 : Nat) = 4096 by norm_num]
      exact Nat.mod_mod_of_dvd _ dvd_rfl
  · intro h81
    obtain ⟨st, hrun, hflag, _, hvl⟩ := l2_untagged_result pkt port h14 h81
    refine ⟨st, hrun, ?_, hvl⟩
    unfold PacketParser.vlanTagged
    rw [hflag]

theorem c4_vlan_flag_and_fields_witness :
    ((∀ b ∈ pkt18, b < 256) ∧ 14 ≤ pkt18.length ∧
      read16 pkt18 12 = 0x8100 ∧ 18 ≤ pkt18.length) ∧
    (∃ st, PacketParser.parsePacket pkt18 0 = .ok st ∧
      PacketParser.vlanTagged st = true ∧
      PacketParser.load pkt18 st .ETH_TYPE (2 ^ 16 - 1) =
        .ok (read16 pkt18 16) ∧
      PacketParser.load pkt18 st .VLAN_VID (2 ^ 12 - 1) =
        .ok (read16 pkt18 14 % 2 ^ 12)) :=
  ⟨⟨by decide, by decide, by decide, by decide⟩,
   (c4_vlan_flag_and_fields pkt18 0 (by decide) (by decide)).1
     (by decide) (by decide)⟩

/-- C10: on an untagged frame the VLAN-id slot is set through bind to the
explicit no-location sentinel; the slot afterwards equals the never-set
slot of a fresh state, and access, load and modify all fail with the same
unbound-field contract violation raised for a field whose layer never
ran. -/
theorem c10_untagged_vlan_absent (pkt : Packet) (port : Nat)
    (h14 : 14 ≤ pkt.length) (h81 : read16 pkt 12 ≠ 0x8100) :
    ∃ st, PacketParser.parsePacket pkt port = .ok st ∧
      getB st.bindings .VLAN_VID = none ∧
      getB st.bindings .VLAN_VID = getB (initState port).bindings .VLAN_VID ∧
      PacketParser.access st .VLAN_VID = .error .unsupportedField ∧
      (∀ mask, PacketParser.load pkt st .VLAN_VID mask =
        .error .unsupportedField) ∧
      (∀ val mask, PacketParser.modify pkt st .VLAN_VID val mask =
        .error .unsupportedField) ∧
      PacketParser.access (initState port) .VLAN_VID =
        .error .unsupportedField := by
  obtain ⟨st, hrun, _, _, hvl⟩ := l2_untagged_result pkt port h14 h81
  have hg : getB st.bindings .VLAN_VID = none := hvl
  refine ⟨st, hrun, hg, ?_, ?_, ?_, ?_, rfl⟩
  · rw [hg]
    rfl
  · simp [PacketParser.access, hg]
  · intro mask
    simp [PacketParser.load, PacketParser.access, hg]
  · intro val mask
    simp [PacketParser.modify, PacketParser.access, hg]

theorem c10_untagged_vlan_absent_witness :
    (14 ≤ ethHdr14.length ∧ read16 ethHdr14 12 ≠ 0x8100) ∧
    (∃ st, PacketParser.parsePacket ethHdr14 3 = .ok st ∧
      getB st.bindings .VLAN_VID = none ∧
      getB st.bindings .VLAN_VID = getB (initState 3).bindings .VLAN_VID ∧
      PacketParser.access st .VLAN_VID = .error .unsupportedField ∧
      (∀ mask, PacketParser.load ethHdr14 st .VLAN_VID mask =
        .error .unsupportedField) ∧
      (∀ val mask, PacketParser.modify ethHdr14 st .VLAN_VID val mask =
        .error .unsupportedField) ∧
      PacketParser.access (initState 3) .VLAN_VID =
        .error .unsupportedField) :=
  ⟨⟨by decide, by decide⟩,
   c10_untagged_vlan_absent ethHdr14 3 (by decide) (by decide)⟩

theorem getD_set_ne (l : Packet) (i j v : Nat) (h : i ≠ j) :
    (l.set i v).getD j 0 = l.getD j 0 := by
  rw [List.getD_eq_getElem?_getD, List.getD_eq_getElem?_getD,
    List.getElem?_set_ne h]

theorem getD_set_self (l : Packet) (i v : Nat) (h : i < l.length) :
    (l.set i v).getD i 0 = v := by
  rw [List.getD_eq_getElem?_getD, List.getElem?_set_eq_of_lt v h]
  rfl

theorem writeBE_length (pkt : Packet) (off : Nat) :
    ∀ w v, (writeBE pkt off w v).length = pkt.length := by
  intro w
  induction w with
  | zero => intro v; rfl
  | succ w ih =>
    intro v
    show ((writeBE pkt off w (v / 256)).set (off + w) (v % 256)).length = _
    rw [List.length_set, ih]

theorem readBE_set_outside (l : Packet) (j v off : Nat) :
    ∀ w, (j < off ∨ off + w ≤ j) →
      readBE (l.set j v) off w = readBE l off w := by
  intro w
  induction w with
  | zero => intro _; rfl
  | succ w ih =>
    intro hout
    show 256 * readBE (l.set j v) off w + read8 (l.set j v) (off + w) =
      256 * readBE l off w + read8 l (off + w)
    rw [ih (by omega), read8, read8, getD_set_ne l j (off + w) v (by omega)]

theorem writeBE_getD_outside (pkt : Packet) (off : Nat) :
    ∀ w v j, (j < off ∨ off + w ≤ j) →
      (writeBE pkt off w v).getD j 0 = pkt.getD j 0 := by
  intro w
  induction w with
  | zero => intro v j _; rfl
  | succ w ih =>
    intro v j hout
    show ((writeBE pkt off w (v / 256)).set (off + w) (v % 256)).getD j 0 = _
    rw [getD_set_ne _ (off + w) j _ (by omega), ih (v / 256) j (by omega)]

/-- Reading back what writeBE wrote yields the low 8w bits of the written
value. -/
theorem readBE_writeBE (pkt : Packet) (off : Nat) :
    ∀ w v, off + w ≤ pkt.length →
      readBE (writeBE pkt off w v) off w = v % 2 ^ (8 * w) := by
  intro w
  induction w with
  | zero =>
    intro v _
    show (0 : Nat) = v % 2 ^ 0
    rw [pow_zero, Nat.mod_one]
  | succ w ih =>
    intro v hlen
    show 256 * readBE ((writeBE pkt off w (v / 256)).set (off + w) (v % 256))
        off w +
      read8 ((writeBE pkt off w (v / 256)).set (off + w) (v % 256)) (off + w) =
      v % 2 ^ (8 * (w + 1))
    rw [readBE_set_outside _ (off + w) _ off w (Or.inr (le_refl _)),
      ih (v / 256) (by omega), read8,
      getD_set_self _ (off + w) _ (by rw [writeBE_length]; omega)]
    have hpow : (2 : Nat) ^ (8 * (w + 1)) = 256 * 2 ^ (8 * w) := by
      rw [Nat.mul_succ, pow_add]
      ring
    rw [hpow, Nat.mod_mul]
    ring

/-- C9: modify on a field bound inside the buffer performs an in-place
read-modify-write: every bit of the covered word selected by the patch
mask takes the patch value bit, every unselected bit of the word
(including adjacent sub-fields packed in the same bytes) is unchanged,
every byte outside the field's bound location is unchanged, and the
buffer keeps its length.  The binding table is untouched by construction:
modify only returns the rewritten buffer. -/
theorem c9_modify_masked_bits (pkt : Packet) (st : ParserState) (f : Fid)
    (off val mask : Nat)
    (hbind : getB st.bindings f = some (.buf off))
    (hlen : off + PacketParser.fieldBytes f ≤ pkt.length) :
    ∃ pkt2, PacketParser.modify pkt st f val mask = .ok pkt2 ∧
      pkt2.length = pkt.length ∧
      (∀ k, k < 8 * PacketParser.fieldBytes f →
        (readBE pkt2 off (PacketParser.fieldBytes f)).testBit k =
          if mask.testBit k then val.testBit k
          else (readBE pkt off (PacketParser.fieldBytes f)).testBit k) ∧
      (∀ j, j < off ∨ off + PacketParser.fieldBytes f ≤ j →
        pkt2.getD j 0 = pkt.getD j 0) := by
  have hacc : PacketParser.access st f = .ok (.buf off) := by
    unfold PacketParser.access
    rw [hbind]
  unfold PacketParser.modify
  rw [hacc]
  refine ⟨_, rfl, writeBE_length pkt off _ _, ?_, ?_⟩
  · intro k hk
    rw [readBE_writeBE pkt off (PacketParser.fieldBytes f) _ hlen,
      Nat.testBit_mod_two_pow]
    simp only [Nat.testBit_lor, Nat.testBit_land, Nat.testBit_xor,
      Nat.testBit_two_pow_sub_one, hk, decide_True, Bool.true_and,
      Bool.true_xor]
    cases hmb : mask.testBit k <;>
      cases hvb : val.testBit k <;>
        cases hob : (readBE pkt off (PacketParser.fieldBytes f)).testBit k <;>
          simp [hmb, hvb, hob]
  · intro j hj
    exact writeBE_getD_outside pkt off _ _ j hj

theorem c9_modify_masked_bits_witness :
    (getB stVlan.bindings .VLAN_VID = some (.buf 14) ∧
      14 + PacketParser.fieldBytes .VLAN_VID ≤ pkt18.length) ∧
    (∃ pkt2, PacketParser.modify pkt18 stVlan .VLAN_VID 0x0ABC 0x0FFF =
        .ok pkt2 ∧
      pkt2.length = pkt18.length ∧
      (∀ k, k < 8 * PacketParser.fieldBytes .VLAN_VID →
        (readBE pkt2 14 (PacketParser.fieldBytes .VLAN_VID)).testBit k =
          if (0x0FFF : Nat).testBit k then (0x0ABC : Nat).testBit k
          else (readBE pkt18 14 (PacketParser.fieldBytes .VLAN_VID)).testBit k) ∧
      (∀ j, j < 14 ∨ 14 + PacketParser.fieldBytes .VLAN_VID ≤ j →
        pkt2.getD j 0 = pkt18.getD j 0)) :=
  ⟨⟨by decide, by decide⟩,
   c9_modify_masked_bits pkt18 stVlan .VLAN_VID 14 0x0ABC 0x0FFF
     (by decide) (by decide)⟩

theorem getD_append_left (l t : List Nat) (p : Nat) (h : p < l.length) :
    (l ++ t).getD p 0 = l.getD p 0 := by
  rw [List.getD_eq_getElem?_getD, List.getD_eq_getElem?_getD,
    List.getElem?_append, if_pos h]

theorem getD_of_drop_cons (l : Packet) (n a : Nat) (t : List Nat)
    (h : l.drop n = a :: t) : l.getD n 0 = a := by
  rw [List.getD_eq_getElem?_getD]
  have h0 : l[n]? = (l.drop n)[0]? := by
    rw [List.getElem?_drop, Nat.add_zero]
  rw [h0, h]
  simp

/-- Looking up the table built by sequentially inserting a scanned list:
the most recently scanned entry for the code wins, otherwise the starting
table answers. -/
theorem insertAll_lookup :
    ∀ (opts : List (Nat × List Nat)) (m : DhcpMap) (c : Nat),
    insertAll m opts c =
      match lastVal c opts with
      | some v => some ⟨c, v.length, v⟩
      | none => m c := by
  intro opts
  induction opts with
  | nil => intro m c; rfl
  | cons p rest ih =>
    intro m c
    obtain ⟨c0, v0⟩ := p
    show insertAll (mapInsert m c0 ⟨c0, v0.length, v0⟩) rest c = _
    rw [ih]
    show _ = (match lastVal c ((c0, v0) :: rest) with
      | some v => some ⟨c, v.length, v⟩
      | none => m c)
    have hl : lastVal c ((c0, v0) :: rest) =
        match lastVal c rest with
        | some v => some v
        | none => if c0 = c then some v0 else none := rfl
    rw [hl]
    cases hrest : lastVal c rest with
    | some v => rfl
    | none =>
      show mapInsert m c0 ⟨c0, v0.length, v0⟩ c = _
      unfold mapInsert
      by_cases hc : c = c0
      · subst hc
        rw [if_pos rfl, if_pos rfl]
      · rw [if_neg hc, if_neg (fun h => hc h.symm)]

/-- Once the magic cookie has been consumed (flag set, cursor at i), the
scan loop over a well-formed encoded option list ending in the 0xFF
terminator builds exactly the sequential insertion of the list. -/
theorem scan_encoded (pkt : Packet) (off : Nat) :
    ∀ (opts : List (Nat × List Nat)) (i fuel bound : Nat) (m : DhcpMap)
      (rds : List Nat),
    wfOpts opts →
    pkt.drop (off + 34 + i) = encodeOpts opts ++ [255] →
    bound = i + (encodeOpts opts).length + 1 →
    bound + 1 ≤ fuel + i →
    (PacketParser.dhcpScanLoop pkt off bound fuel i true m rds).1 =
      insertAll m opts := by
  intro opts
  induction opts with
  | nil =>
    intro i fuel bound m rds _ hdrop hbound hfuel
    have hb2 : bound = i + 1 := by
      simpa [encodeOpts] using hbound
    cases fuel with
    | zero => exact absurd hfuel (by omega)
    | succ fuel2 =>
      have hc : read8 pkt (off + 34 + i) = 255 :=
        getD_of_drop_cons pkt _ 255 [] (by simpa [encodeOpts] using hdrop)
      show (PacketParser.dhcpScanLoop pkt off bound (fuel2 + 1) i true m rds).1
        = m
      simp only [PacketParser.dhcpScanLoop]
      rw [if_pos (by omega : i ≤ bound), if_true, hc, if_pos rfl]
  | cons p rest ih =>
    intro i fuel bound m rds hwf hdrop hbound hfuel
    obtain ⟨c0, v0⟩ := p
    have hwf0 := hwf (c0, v0) (by simp)
    have hwfr : wfOpts rest := fun q hq => hwf q (by simp [hq])
    have hlen : (encodeOpts ((c0, v0) :: rest)).length =
        v0.length + 2 + (encodeOpts rest).length := by
      simp [encodeOpts]
      omega
    have hdrop2 : pkt.drop (off + 34 + i) =
        c0 :: v0.length :: (v0 ++ (encodeOpts rest ++ [255])) := by
      simpa [encodeOpts, List.append_assoc] using hdrop
    cases fuel with
    | zero => exact absurd hfuel (by omega)
    | succ fuel2 =>
      have hc0 : read8 pkt (off + 34 + i) = c0 :=
        getD_of_drop_cons pkt _ c0 _ hdrop2
      have hd1 : pkt.drop (off + 34 + i + 1) =
          v0.length :: (v0 ++ (encodeOpts rest ++ [255])) := by
        rw [← List.drop_drop, hdrop2]
        rfl
      have hl1 : read8 pkt (off + 34 + i + 1) = v0.length :=
        getD_of_drop_cons pkt _ _ _ hd1
      have hd2 : pkt.drop (off + 34 + i + 2) =
          v0 ++ (encodeOpts rest ++ [255]) := by
        rw [← List.drop_drop, hdrop2]
        rfl
      have hval : (pkt.drop (off + 34 + i + 2)).take v0.length = v0 := by
        rw [hd2]
        exact List.take_left' rfl
      have hd3 : pkt.drop (off + 34 + (i + v0.length + 2)) =
          encodeOpts rest ++ [255] := by
        rw [show off + 34 + (i + v0.length + 2) =
            off + 34 + i + 2 + v0.length by omega,
          ← List.drop_drop, hd2, List.drop_left' rfl]
      show (PacketParser.dhcpScanLoop pkt off bound (fuel2 + 1) i true m
        rds).1 = _
      simp only [PacketParser.dhcpScanLoop]
      rw [if_pos (by omega : i ≤ bound), if_true, hc0,
        if_neg (by omega : ¬ (c0 = 255)), hl1, hval,
        ih (i + v0.length + 2) fuel2 bound _ _ hwfr hd3 (by omega) (by omega)]
      rfl

/-- C6: on a UDP 68-to-67 datagram carrying a DHCP fixed header, the
magic cookie and a well-formed option list ending in 0xFF, the option
table maps every code to its most recently scanned entry and
get_dhcp_option returns that entry, or the empty sentinel for a code
never scanned. -/
theorem c6_dhcp_option_table (opts : List (Nat × List Nat))
    (hwf : wfOpts opts) :
    ∃ st, PacketParser.parsePacket (mkDhcpPkt opts) 0 = .ok st ∧
      ∀ c, PacketParser.get_dhcp_option st c = optSpec c opts := by
  have h80 : pref80.length = 80 := by decide
  have hlen : (mkDhcpPkt opts).length = 81 + (encodeOpts opts).length := by
    show (pref80 ++ (encodeOpts opts ++ [255])).length = _
    rw [List.length_append, List.length_append, h80]
    simp
    omega
  have hbyte : ∀ p v : Nat, p < 80 → pref80.getD p 0 = v →
      read8 (mkDhcpPkt opts) p = v := by
    intro p v hp hv
    show (pref80 ++ (encodeOpts opts ++ [255])).getD p 0 = v
    rw [getD_append_left _ _ p (by omega)]
    exact hv
  have e12 := hbyte 12 8 (by omega) (by decide)
  have e13 := hbyte 13 0 (by omega) (by decide)
  have e14 := hbyte 14 69 (by omega) (by decide)
  have e23 := hbyte 23 17 (by omega) (by decide)
  have e34 := hbyte 34 0 (by omega) (by decide)
  have e35 := hbyte 35 68 (by omega) (by decide)
  have e36 := hbyte 36 0 (by omega) (by decide)
  have e37 := hbyte 37 67 (by omega) (by decide)
  have e76 := hbyte 76 99 (by omega) (by decide)
  have e77 := hbyte 77 130 (by omega) (by decide)
  have e78 := hbyte 78 83 (by omega) (by decide)
  have e79 := hbyte 79 99 (by omega) (by decide)
  have read16_eq : ∀ (pkt : Packet) (i : Nat),
      read16 pkt i = 256 * read8 pkt i + read8 pkt (i + 1) := by
    intro pkt i
    show 256 * (256 * 0 + read8 pkt (i + 0)) + read8 pkt (i + 1) = _
    rw [Nat.add_zero i]
    omega
  have h0800 : read16 (mkDhcpPkt opts) 12 = 0x0800 := by
    rw [read16_eq, e12]
    rw [show (12 + 1 : Nat) = 13 from rfl, e13]
  have h8100ne : read16 (mkDhcpPkt opts) 12 ≠ 0x8100 := by
    rw [h0800]
    decide
  have h68 : read16 (mkDhcpPkt opts) 34 = 68 := by
    rw [read16_eq, e34]
    rw [show (34 + 1 : Nat) = 35 from rfl, e35]
  have h67 : read16 (mkDhcpPkt opts) 36 = 67 := by
    rw [read16_eq, e36]
    rw [show (36 + 1 : Nat) = 37 from rfl, e37]
  have hdrop80 : (mkDhcpPkt opts).drop 80 = encodeOpts opts ++ [255] := by
    show (pref80 ++ (encodeOpts opts ++ [255])).drop 80 = _
    exact List.drop_left' h80
  have hscan : (PacketParser.dhcpScan (mkDhcpPkt opts) 42
      ((mkDhcpPkt opts).length - 14 - 20 - 8) (fun _ => none)).1 =
      insertAll (fun _ => none) opts := by
    unfold PacketParser.dhcpScan
    have hBeq : (mkDhcpPkt opts).length - 14 - 20 - 8 - 34 =
        (encodeOpts opts).length + 5 := by
      rw [hlen]
      omega
    rw [hBeq]
    generalize hG : (encodeOpts opts).length + 5 = G
    simp only [PacketParser.dhcpScanLoop]
    rw [if_pos (by omega : 0 ≤ G)]
    rw [if_neg (by decide : ¬(false = true))]
    simp only [Nat.reduceAdd]
    rw [e76, if_pos rfl,
      if_pos (by omega : (1 : Nat) ≤ G),
      e77, if_pos rfl,
      if_pos (by omega : (2 : Nat) ≤ G),
      e78, if_pos rfl,
      if_pos (by omega : (3 : Nat) ≤ G),
      e79, if_pos rfl]
    exact scan_encoded (mkDhcpPkt opts) 42 opts 4 G G (fun _ => none) _
      hwf hdrop80 (by omega) (by omega)
  rw [parsePacket_eq_l2]
  unfold PacketParser.parse_l2
  rw [if_pos (by rw [hlen]; omega : 14 ≤ (mkDhcpPkt opts).length),
    if_neg h8100ne]
  simp only [PacketParser.bindSt, PacketParser.bind, PacketParser.exBind,
    getB, setB, initBound, Option.isSome_none, Bool.false_eq_true, if_false]
  rw [h0800]
  unfold PacketParser.parse_l3
  rw [if_pos rfl,
    if_pos (by rw [hlen]; omega : 20 ≤ (mkDhcpPkt opts).length - 14)]
  simp only [PacketParser.bindSt, PacketParser.bind, PacketParser.exBind,
    getB, setB, Option.isSome_none, Bool.false_eq_true, if_false]
  rw [e14, show (69 % 16 * 4 : Nat) = 20 from by norm_num]
  rw [if_pos (by rw [hlen]; omega : 20 < (mkDhcpPkt opts).length - 14)]
  simp only [Nat.reduceAdd]
  rw [e23]
  unfold PacketParser.parse_l4
  rw [if_neg (by decide : ¬((17 : Nat) = 6)), if_pos rfl,
    if_pos (by rw [hlen]; omega : 8 ≤ (mkDhcpPkt opts).length - 14 - 20)]
  simp only [PacketParser.bindSt, PacketParser.bind, PacketParser.exBind,
    getB, setB, Option.isSome_none, Bool.false_eq_true, if_false]
  rw [if_pos (by rw [hlen]; omega : 8 < (mkDhcpPkt opts).length - 14 - 20)]
  simp only [Nat.reduceAdd]
  rw [if_pos (⟨h68, h67⟩ : read16 (mkDhcpPkt opts) 34 = 68 ∧
    read16 (mkDhcpPkt opts) 36 = 67)]
  unfold PacketParser.parse_dhcp
  rw [if_pos (by rw [hlen]; omega : 34 ≤ (mkDhcpPkt opts).length - 14 - 20 - 8)]
  simp only [PacketParser.bindSt, PacketParser.bind, PacketParser.exBind,
    getB, setB, Option.isSome_none, Bool.false_eq_true, if_false]
  refine ⟨_, rfl, ?_⟩
  intro c
  simp only [PacketParser.get_dhcp_option, hscan, insertAll_lookup]
  cases hl : lastVal c opts with
  | some v => simp [optSpec, hl]
  | none => simp [optSpec, hl]

theorem c6_dhcp_option_table_witness :
    wfOpts [(53, [2])] ∧
    (∃ st, PacketParser.parsePacket (mkDhcpPkt [(53, [2])]) 0 = .ok st ∧
      ∀ c, PacketParser.get_dhcp_option st c = optSpec c [(53, [2])]) :=
  ⟨by unfold wfOpts; decide, c6_dhcp_option_table [(53, [2])] (by unfold wfOpts; decide)⟩
